import Mathlib

/-!
Verification of the C bridge `sqlite3/func.c` of the go-sqlite3 repository.

The bridge consists of four registration entry points that wrap the SQLite
engine primitives `sqlite3_create_collation_v2`, `sqlite3_create_function_v2`
and `sqlite3_create_window_function`, wiring fixed Go trampoline callbacks
(`go_compare`, `go_func`, `go_step`, `go_final`, `go_value`, `go_inverse`,
`go_destroy`) and forwarding every caller argument.

Layer 1 embeds the bridge itself: each entry point is a pure function that
builds the exact argument record handed to the engine primitive and returns
the engine's status unchanged.  Layer 2 models the engine side (registration
validation, replacement, destruction, shutdown) from the specification, since
the engine implementation is not part of the source under verification.
-/

namespace GoSqlite3

/-- Opaque pointers (`sqlite3 *db`, `void *pApp`) are modelled as addresses. -/
abbrev Handle := Nat

/-- `SQLITE_UTF8`, the engine's base text-encoding flag (value 1 in sqlite3.h). -/
def SQLITE_UTF8 : Nat := 1

/-- `SQLITE_OK` status code. -/
def SQLITE_OK : Int := 0

/-- `SQLITE_MISUSE` status code. -/
def SQLITE_MISUSE : Int := 21

/-- The Go trampoline callbacks declared at the top of func.c.  The bridge
only ever passes these fixed entry points (or NULL) to the engine. -/
inductive Callback
  | go_compare
  | go_func
  | go_step
  | go_final
  | go_value
  | go_inverse
  | go_destroy
deriving DecidableEq, Repr

/-- The argument record the bridge hands to `sqlite3_create_collation_v2`:
`(db, zName, eTextRep, pApp, xCompare, xDestroy)`.  A callback slot is
`none` when the C code passes NULL. -/
structure CollationCall where
  db : Handle
  zName : String
  eTextRep : Nat
  pApp : Handle
  xCompare : Option Callback
  xDestroy : Option Callback
deriving DecidableEq, Repr

/-- The argument record the bridge hands to `sqlite3_create_function_v2`:
`(db, zName, nArg, eTextRep, pApp, xFunc, xStep, xFinal, xDestroy)`. -/
structure FunctionCall where
  db : Handle
  zName : String
  nArg : Int
  eTextRep : Nat
  pApp : Handle
  xFunc : Option Callback
  xStep : Option Callback
  xFinal : Option Callback
  xDestroy : Option Callback
deriving DecidableEq, Repr

/-- The argument record the bridge hands to `sqlite3_create_window_function`:
`(db, zName, nArg, eTextRep, pApp, xStep, xFinal, xValue, xInverse, xDestroy)`. -/
structure WindowCall where
  db : Handle
  zName : String
  nArg : Int
  eTextRep : Nat
  pApp : Handle
  xStep : Option Callback
  xFinal : Option Callback
  xValue : Option Callback
  xInverse : Option Callback
  xDestroy : Option Callback
deriving DecidableEq, Repr

/-- The uniform dispatch table of the up to seven callback slots an engine
primitive can receive; slots a primitive's signature does not even have are
recorded as `none` (not wired). -/
structure DispatchTable where
  xCompare : Option Callback
  xFunc : Option Callback
  xStep : Option Callback
  xFinal : Option Callback
  xValue : Option Callback
  xInverse : Option Callback
  xDestroy : Option Callback
deriving DecidableEq, Repr

/-- Slots wired by a collation registration: `sqlite3_create_collation_v2`
has only a comparator and a destructor slot. -/
def CollationCall.slots (c : CollationCall) : DispatchTable :=
  { xCompare := c.xCompare, xFunc := none, xStep := none, xFinal := none,
    xValue := none, xInverse := none, xDestroy := c.xDestroy }

/-- Slots wired by a scalar function registration. -/
def FunctionCall.slots (c : FunctionCall) : DispatchTable :=
  { xCompare := none, xFunc := c.xFunc, xStep := c.xStep, xFinal := c.xFinal,
    xValue := none, xInverse := none, xDestroy := c.xDestroy }

/-- Slots wired by a window-function registration. -/
def WindowCall.slots (c : WindowCall) : DispatchTable :=
  { xCompare := none, xFunc := none, xStep := c.xStep, xFinal := c.xFinal,
    xValue := c.xValue, xInverse := c.xInverse, xDestroy := c.xDestroy }

/-- func.c lines 13-16: the argument record `sqlite3_create_go_collation`
builds for `sqlite3_create_collation_v2`:
`(db, zName, SQLITE_UTF8, pApp, go_compare, go_destroy)`. -/
def collationCall (db : Handle) (zName : String) (pApp : Handle) :
    CollationCall :=
  { db := db, zName := zName, eTextRep := SQLITE_UTF8, pApp := pApp,
    xCompare := some .go_compare, xDestroy := some .go_destroy }

/-- func.c lines 18-22: the argument record `sqlite3_create_go_function`
builds for `sqlite3_create_function_v2`:
`(db, zName, nArg, SQLITE_UTF8 | flags, pApp, go_func, NULL, NULL, go_destroy)`. -/
def functionCall (db : Handle) (zName : String) (nArg : Int) (flags : Nat)
    (pApp : Handle) : FunctionCall :=
  { db := db, zName := zName, nArg := nArg,
    eTextRep := SQLITE_UTF8 ||| flags, pApp := pApp,
    xFunc := some .go_func, xStep := none, xFinal := none,
    xDestroy := some .go_destroy }

/-- func.c lines 24-29: the argument record `sqlite3_create_go_window_function`
builds for `sqlite3_create_window_function`:
`(db, zName, nArg, SQLITE_UTF8 | flags, pApp, go_step, go_final, NULL, NULL,
go_destroy)`. -/
def windowCall (db : Handle) (zName : String) (nArg : Int) (flags : Nat)
    (pApp : Handle) : WindowCall :=
  { db := db, zName := zName, nArg := nArg,
    eTextRep := SQLITE_UTF8 ||| flags, pApp := pApp,
    xStep := some .go_step, xFinal := some .go_final,
    xValue := none, xInverse := none, xDestroy := some .go_destroy }

/-- func.c lines 31-36: the argument record `sqlite3_create_go_aggregate_function`
builds for `sqlite3_create_window_function`:
`(db, zName, nArg, SQLITE_UTF8 | flags, pApp, go_step, go_final, go_value,
go_inverse, go_destroy)`. -/
def aggregateCall (db : Handle) (zName : String) (nArg : Int) (flags : Nat)
    (pApp : Handle) : WindowCall :=
  { db := db, zName := zName, nArg := nArg,
    eTextRep := SQLITE_UTF8 ||| flags, pApp := pApp,
    xStep := some .go_step, xFinal := some .go_final,
    xValue := some .go_value, xInverse := some .go_inverse,
    xDestroy := some .go_destroy }

/-- `sqlite3_create_go_collation`: builds the record and returns whatever
status the engine primitive returns, unchanged. -/
def sqlite3_create_go_collation (engine : CollationCall → Int)
    (db : Handle) (zName : String) (pApp : Handle) : Int :=
  engine (collationCall db zName pApp)

/-- `sqlite3_create_go_function`: builds the record and returns whatever
status the engine primitive returns, unchanged. -/
def sqlite3_create_go_function (engine : FunctionCall → Int)
    (db : Handle) (zName : String) (nArg : Int) (flags : Nat)
    (pApp : Handle) : Int :=
  engine (functionCall db zName nArg flags pApp)

/-- `sqlite3_create_go_window_function`: builds the record and returns
whatever status the engine primitive returns, unchanged. -/
def sqlite3_create_go_window_function (engine : WindowCall → Int)
    (db : Handle) (zName : String) (nArg : Int) (flags : Nat)
    (pApp : Handle) : Int :=
  engine (windowCall db zName nArg flags pApp)

/-- `sqlite3_create_go_aggregate_function`: builds the record and returns
whatever status the engine primitive returns, unchanged. -/
def sqlite3_create_go_aggregate_function (engine : WindowCall → Int)
    (db : Handle) (zName : String) (nArg : Int) (flags : Nat)
    (pApp : Handle) : Int :=
  engine (aggregateCall db zName nArg flags pApp)

/-!
### Layer 2: the engine side, modelled from the specification

The engine primitives `sqlite3_create_collation_v2`,
`sqlite3_create_function_v2` and `sqlite3_create_window_function` are only
declared in the source under verification; their behaviour (validation,
replacement, destroy and shutdown semantics) is modelled here from the
specification's words.
-/

/-- Registration namespace key: collations and functions live in separate
namespaces; a function registration is keyed by name and arity. -/
inductive Kind
  | collation
  | function
deriving DecidableEq, Repr

/-- A registration key: kind, name and arity (collations use arity 0). -/
abbrev Key := Kind × String × Int

/-- Observable engine events: the engine invoking the destroy callback on a
handle, and a registered handle servicing a callback invocation. -/
inductive Event
  | destroy (h : Handle)
  | service (h : Handle)
deriving DecidableEq, Repr

/-- Modelled from the spec: the engine's registration state.  `regs` is the
naming table mapping each key to the handle currently registered under it,
`events` the trace of observable events so far, and `owned` the (ghost)
list of handles the engine has ever taken ownership of via a successful
registration. -/
structure EngineState where
  regs : List (Key × Handle)
  events : List Event
  owned : List Handle
deriving DecidableEq, Repr

/-- The engine state before any registration. -/
def EngineState.empty : EngineState := ⟨[], [], []⟩

/-- Look a key up in the naming table. -/
def lookupKey (k : Key) : List (Key × Handle) → Option Handle
  | [] => none
  | (k₀, h₀) :: rest => if k₀ = k then some h₀ else lookupKey k rest

/-- Remove every entry under a key from the naming table. -/
def removeKey (k : Key) : List (Key × Handle) → List (Key × Handle)
  | [] => []
  | (k₀, h₀) :: rest =>
      if k₀ = k then removeKey k rest else (k₀, h₀) :: removeKey k rest

/-- Number of entries under a key in the naming table. -/
def keyCount (k : Key) : List (Key × Handle) → Nat
  | [] => 0
  | (k₀, _) :: rest => (if k₀ = k then 1 else 0) + keyCount k rest

/-- Number of table entries holding a given handle. -/
def regCount (h : Handle) : List (Key × Handle) → Nat
  | [] => 0
  | (_, h₀) :: rest => (if h₀ = h then 1 else 0) + regCount h rest

/-- Number of destroy events for a handle in a trace. -/
def destroyCount (h : Handle) : List Event → Nat
  | [] => 0
  | Event.destroy h₀ :: rest => (if h₀ = h then 1 else 0) + destroyCount h rest
  | Event.service _ :: rest => destroyCount h rest

/-- Number of service events for a handle in a trace. -/
def serviceCount (h : Handle) : List Event → Nat
  | [] => 0
  | Event.service h₀ :: rest => (if h₀ = h then 1 else 0) + serviceCount h rest
  | Event.destroy _ :: rest => serviceCount h rest

/-- Modelled from the spec: "`name` non-empty, valid identifier". -/
def validIdent (s : String) : Bool :=
  !s.isEmpty && s.toList.all (fun c => c.isAlphanum || c == '_')

/-- Modelled from the spec: the engine's supported flag bitset — the base
text-encoding flag plus the engine-defined hint bits the spec names
(deterministic 0x800, direct-only 0x80000, subtype 0x100000). -/
def SUPPORTED_FLAGS : Nat := SQLITE_UTF8 ||| 0x800 ||| 0x80000 ||| 0x100000

/-- `subsetBits a b` holds when every bit set in `a` is set in `b`. -/
def subsetBits (a b : Nat) : Bool := a ||| b == b

/-- Modelled from the spec: install a handle under a key.  "Registering the
same name+arity atomically replaces any prior registration, triggering
destroy of the old handle"; the new handle becomes owned and the engine
reports success. -/
def engineInstall (st : EngineState) (k : Key) (h : Handle) :
    EngineState × Int :=
  match lookupKey k st.regs with
  | some old =>
      ({ regs := (k, h) :: removeKey k st.regs,
         events := st.events ++ [Event.destroy old],
         owned := st.owned ++ [h] }, SQLITE_OK)
  | none =>
      ({ regs := (k, h) :: st.regs,
         events := st.events,
         owned := st.owned ++ [h] }, SQLITE_OK)

/-- Modelled from the spec: contract check for a function-kind registration:
"`name` non-empty, valid identifier; `arity ≥ −1`; `flags` validated against
the engine's supported bitset — unknown bits rejected". -/
def validFunction (zName : String) (nArg : Int) (eTextRep : Nat) : Bool :=
  validIdent zName && decide (-1 ≤ nArg) && subsetBits eTextRep SUPPORTED_FLAGS

/-- Modelled from the spec: `sqlite3_create_collation_v2`.  Validates the
name; on violation returns an error status without touching the state (no
ownership transfer, no destroy); otherwise installs the comparator entry. -/
def engineCreateCollation (st : EngineState) (c : CollationCall) :
    EngineState × Int :=
  if validIdent c.zName then
    engineInstall st (Kind.collation, c.zName, 0) c.pApp
  else (st, SQLITE_MISUSE)

/-- Modelled from the spec: `sqlite3_create_function_v2`.  Validates name,
arity and flags; on violation returns an error status without touching the
state; otherwise installs under the name+arity key. -/
def engineCreateFunction (st : EngineState) (c : FunctionCall) :
    EngineState × Int :=
  if validFunction c.zName c.nArg c.eTextRep then
    engineInstall st (Kind.function, c.zName, c.nArg) c.pApp
  else (st, SQLITE_MISUSE)

/-- Modelled from the spec: `sqlite3_create_window_function`.  Same
validation and naming-table semantics as `engineCreateFunction`. -/
def engineCreateWindow (st : EngineState) (c : WindowCall) :
    EngineState × Int :=
  if validFunction c.zName c.nArg c.eTextRep then
    engineInstall st (Kind.function, c.zName, c.nArg) c.pApp
  else (st, SQLITE_MISUSE)

/-- Modelled from the spec: the engine invokes a callback of the extension
registered under a key; the registered handle services the call. -/
def engineInvoke (st : EngineState) (k : Key) : EngineState :=
  match lookupKey k st.regs with
  | some h => { st with events := st.events ++ [Event.service h] }
  | none => st

/-- Modelled from the spec: engine shutdown destroys every currently
registered handle. -/
def engineShutdown (st : EngineState) : EngineState :=
  { regs := [],
    events := st.events ++ st.regs.map (fun p => Event.destroy p.2),
    owned := st.owned }

/-- The collation bridge entry point applied to the modelled engine. -/
def goCollationReg (st : EngineState) (db : Handle) (zName : String)
    (pApp : Handle) : EngineState × Int :=
  engineCreateCollation st (collationCall db zName pApp)

/-- The scalar-function bridge entry point applied to the modelled engine. -/
def goFunctionReg (st : EngineState) (db : Handle) (zName : String)
    (nArg : Int) (flags : Nat) (pApp : Handle) : EngineState × Int :=
  engineCreateFunction st (functionCall db zName nArg flags pApp)

/-- The window-function bridge entry point applied to the modelled engine. -/
def goWindowReg (st : EngineState) (db : Handle) (zName : String)
    (nArg : Int) (flags : Nat) (pApp : Handle) : EngineState × Int :=
  engineCreateWindow st (windowCall db zName nArg flags pApp)

/-- The aggregate-function bridge entry point applied to the modelled
engine. -/
def goAggregateReg (st : EngineState) (db : Handle) (zName : String)
    (nArg : Int) (flags : Nat) (pApp : Handle) : EngineState × Int :=
  engineCreateWindow st (aggregateCall db zName nArg flags pApp)

/-- Lifecycle commands: the four bridge registrations, a callback
invocation under a key, and engine shutdown. -/
inductive Cmd
  | regCollation (db : Handle) (zName : String) (pApp : Handle)
  | regFunction (db : Handle) (zName : String) (nArg : Int) (flags : Nat)
      (pApp : Handle)
  | regWindow (db : Handle) (zName : String) (nArg : Int) (flags : Nat)
      (pApp : Handle)
  | regAggregate (db : Handle) (zName : String) (nArg : Int) (flags : Nat)
      (pApp : Handle)
  | invoke (k : Key)
  | shutdown
deriving DecidableEq, Repr

/-- The handle argument of a registration command, if any. -/
def cmdHandle : Cmd → Option Handle
  | Cmd.regCollation _ _ p => some p
  | Cmd.regFunction _ _ _ _ p => some p
  | Cmd.regWindow _ _ _ _ p => some p
  | Cmd.regAggregate _ _ _ _ p => some p
  | Cmd.invoke _ => none
  | Cmd.shutdown => none

/-- The handles passed to registration commands, in order. -/
def cmdHandles (cs : List Cmd) : List Handle := cs.filterMap cmdHandle

/-- One lifecycle step. -/
def step (st : EngineState) : Cmd → EngineState
  | Cmd.regCollation db n p => (goCollationReg st db n p).1
  | Cmd.regFunction db n a f p => (goFunctionReg st db n a f p).1
  | Cmd.regWindow db n a f p => (goWindowReg st db n a f p).1
  | Cmd.regAggregate db n a f p => (goAggregateReg st db n a f p).1
  | Cmd.invoke k => engineInvoke st k
  | Cmd.shutdown => engineShutdown st

/-- Run a command list. -/
def run (st : EngineState) : List Cmd → EngineState
  | [] => st
  | c :: cs => run (step st c) cs

/-- Lifecycle invariant: the naming table has at most one entry per key;
every owned handle is either currently registered or destroyed, exactly
once in total; a handle never owned was never destroyed, never registered
and never serviced. -/
def Inv (st : EngineState) : Prop :=
  (∀ k, keyCount k st.regs ≤ 1) ∧
  (∀ h, h ∈ st.owned →
    destroyCount h st.events + regCount h st.regs = 1) ∧
  (∀ h, h ∉ st.owned →
    destroyCount h st.events = 0 ∧ regCount h st.regs = 0 ∧
    serviceCount h st.events = 0)

end GoSqlite3

namespace GoSqlite3

/-! ### Claims settled directly against the bridge source -/

/-- **C1** (code bug evidence): evaluating `sqlite3_create_go_window_function`
at a concrete call (db 0, name "sum2", arity 1, flags 0, handle 7) shows the
record handed to the engine has NULL in both the value and inverse slots,
while the sibling `sqlite3_create_go_aggregate_function` wires `go_value` and
`go_inverse`.  The claim says the window entry point installs all four window
callbacks with non-null value and inverse; the code passes NULL for both. -/
theorem C1_window_value_inverse_null :
    (windowCall 0 "sum2" 1 0 7).xValue = none ∧
    (windowCall 0 "sum2" 1 0 7).xInverse = none ∧
    (aggregateCall 0 "sum2" 1 0 7).xValue = some Callback.go_value ∧
    (aggregateCall 0 "sum2" 1 0 7).xInverse = some Callback.go_inverse := by
  refine ⟨rfl, rfl, rfl, rfl⟩

/-- **C4**: for every caller-supplied flags value, the flag bitset handed to
the engine by the scalar, window and aggregate entry points equals the
caller's bits ORed with `SQLITE_UTF8`: bit by bit, the engine receives
exactly the union of the caller's bits and the base text-encoding bit, so
every caller bit passes through verbatim and none is masked or altered. -/
theorem C4_flags_passthrough (db : Handle) (zName : String) (nArg : Int)
    (flags : Nat) (pApp : Handle) :
    (functionCall db zName nArg flags pApp).eTextRep =
        SQLITE_UTF8 ||| flags ∧
    (windowCall db zName nArg flags pApp).eTextRep = SQLITE_UTF8 ||| flags ∧
    (aggregateCall db zName nArg flags pApp).eTextRep =
        SQLITE_UTF8 ||| flags ∧
    (∀ i : Nat,
      (functionCall db zName nArg flags pApp).eTextRep.testBit i =
        (SQLITE_UTF8.testBit i || flags.testBit i)) ∧
    (∀ i : Nat, flags.testBit i = true →
      (functionCall db zName nArg flags pApp).eTextRep.testBit i = true) := by
  refine ⟨rfl, rfl, rfl, ?_, ?_⟩
  · intro i
    simp [functionCall, Nat.testBit_or]
  · intro i hi
    simp [functionCall, Nat.testBit_or, hi]

/-- Witness for C4: with caller flags 0x800 (the deterministic hint bit),
the engine receives the base flag ORed in, and bit 11 passes through. -/
theorem C4_flags_passthrough_witness :
    (functionCall 0 "f" 1 0x800 7).eTextRep = SQLITE_UTF8 ||| 0x800 ∧
    (functionCall 0 "f" 1 0x800 7).eTextRep.testBit 11 = true :=
  ⟨(C4_flags_passthrough 0 "f" 1 0x800 7).1,
    (C4_flags_passthrough 0 "f" 1 0x800 7).2.2.2.2 11 (by decide)⟩

/-- **C7**: the scalar registration entry point installs only the scalar-call
callback: the record handed to `sqlite3_create_function_v2` has `go_func` in
the scalar slot and NULL in both the step and final slots, so no aggregate
path exists for a scalar registration. -/
theorem C7_scalar_only (db : Handle) (zName : String) (nArg : Int)
    (flags : Nat) (pApp : Handle) :
    (functionCall db zName nArg flags pApp).xFunc = some Callback.go_func ∧
    (functionCall db zName nArg flags pApp).xStep = none ∧
    (functionCall db zName nArg flags pApp).xFinal = none := by
  refine ⟨rfl, rfl, rfl⟩

/-- **C8**: the collation registration entry point installs a comparator-only
extension: of the seven possible dispatch slots, exactly the comparator
(`go_compare`) and the destructor (`go_destroy`) are wired; the scalar, step,
final, value and inverse slots are all unwired. -/
theorem C8_collation_comparator_only (db : Handle) (zName : String)
    (pApp : Handle) :
    (collationCall db zName pApp).slots =
      { xCompare := some Callback.go_compare, xFunc := none, xStep := none,
        xFinal := none, xValue := none, xInverse := none,
        xDestroy := some Callback.go_destroy } := by
  rfl

/-- **C9**: collation registration always fixes the text encoding to UTF-8:
the entry point takes no flags or encoding parameter, and for every call the
encoding handed to the engine is exactly `SQLITE_UTF8`. -/
theorem C9_collation_utf8 (db : Handle) (zName : String) (pApp : Handle) :
    (collationCall db zName pApp).eTextRep = SQLITE_UTF8 := by
  rfl

/-- **C10**: every one of the four registration entry points wires
`go_destroy` as the handle destructor, forwards its db, name, arity and
opaque-handle arguments to the engine unmodified, and returns the engine's
status code unchanged: each entry point is exactly the engine primitive
applied to the forwarded record, with no state or effect of its own. -/
theorem C10_uniform_destroy_and_forwarding
    (ec : CollationCall → Int) (ef : FunctionCall → Int)
    (ew : WindowCall → Int)
    (db : Handle) (zName : String) (nArg : Int) (flags : Nat)
    (pApp : Handle) :
    (sqlite3_create_go_collation ec db zName pApp =
        ec (collationCall db zName pApp) ∧
      (collationCall db zName pApp).xDestroy = some Callback.go_destroy ∧
      (collationCall db zName pApp).db = db ∧
      (collationCall db zName pApp).zName = zName ∧
      (collationCall db zName pApp).pApp = pApp) ∧
    (sqlite3_create_go_function ef db zName nArg flags pApp =
        ef (functionCall db zName nArg flags pApp) ∧
      (functionCall db zName nArg flags pApp).xDestroy =
        some Callback.go_destroy ∧
      (functionCall db zName nArg flags pApp).db = db ∧
      (functionCall db zName nArg flags pApp).zName = zName ∧
      (functionCall db zName nArg flags pApp).nArg = nArg ∧
      (functionCall db zName nArg flags pApp).pApp = pApp) ∧
    (sqlite3_create_go_window_function ew db zName nArg flags pApp =
        ew (windowCall db zName nArg flags pApp) ∧
      (windowCall db zName nArg flags pApp).xDestroy =
        some Callback.go_destroy ∧
      (windowCall db zName nArg flags pApp).db = db ∧
      (windowCall db zName nArg flags pApp).zName = zName ∧
      (windowCall db zName nArg flags pApp).nArg = nArg ∧
      (windowCall db zName nArg flags pApp).pApp = pApp) ∧
    (sqlite3_create_go_aggregate_function ew db zName nArg flags pApp =
        ew (aggregateCall db zName nArg flags pApp) ∧
      (aggregateCall db zName nArg flags pApp).xDestroy =
        some Callback.go_destroy ∧
      (aggregateCall db zName nArg flags pApp).db = db ∧
      (aggregateCall db zName nArg flags pApp).zName = zName ∧
      (aggregateCall db zName nArg flags pApp).nArg = nArg ∧
      (aggregateCall db zName nArg flags pApp).pApp = pApp) := by
  refine ⟨⟨rfl, rfl, rfl, rfl, rfl⟩, ⟨rfl, rfl, rfl, rfl, rfl, rfl⟩,
    ⟨rfl, rfl, rfl, rfl, rfl, rfl⟩, ⟨rfl, rfl, rfl, rfl, rfl, rfl⟩⟩

end GoSqlite3

/-! ### Helper lemmas for the lifecycle model -/

namespace GoSqlite3

theorem keyCount_eq_zero_of_lookupKey_none {k : Key}
    {rs : List (Key × Handle)} (hl : lookupKey k rs = none) :
    keyCount k rs = 0 := by
  induction rs with
  | nil => rfl
  | cons p rest ih =>
      obtain ⟨k₀, h₀⟩ := p
      by_cases hk : k₀ = k
      · simp [lookupKey, hk] at hl
      · simp only [lookupKey, hk, if_false] at hl
        simp [keyCount, hk, ih hl]

theorem removeKey_of_keyCount_zero {k : Key}
    {rs : List (Key × Handle)} (hz : keyCount k rs = 0) :
    removeKey k rs = rs := by
  induction rs with
  | nil => rfl
  | cons p rest ih =>
      obtain ⟨k₀, h₀⟩ := p
      by_cases hk : k₀ = k
      · simp [keyCount, hk] at hz
      · simp only [keyCount, hk, if_false, Nat.zero_add] at hz
        simp [removeKey, hk, ih hz]

theorem keyCount_removeKey_self (k : Key) (rs : List (Key × Handle)) :
    keyCount k (removeKey k rs) = 0 := by
  induction rs with
  | nil => rfl
  | cons p rest ih =>
      obtain ⟨k₀, h₀⟩ := p
      by_cases hk : k₀ = k
      · simp [removeKey, hk, ih]
      · simp [removeKey, keyCount, hk, ih]

theorem keyCount_removeKey_le (j k : Key) (rs : List (Key × Handle)) :
    keyCount j (removeKey k rs) ≤ keyCount j rs := by
  induction rs with
  | nil => exact Nat.le_refl 0
  | cons p rest ih =>
      obtain ⟨k₀, h₀⟩ := p
      by_cases hk : k₀ = k
      · simp only [removeKey, hk, if_true, keyCount]
        exact Nat.le_trans ih (Nat.le_add_left _ _)
      · simp only [removeKey, hk, if_false, keyCount]
        exact Nat.add_le_add_left ih _

theorem regCount_removeKey_le (h : Handle) (k : Key)
    (rs : List (Key × Handle)) :
    regCount h (removeKey k rs) ≤ regCount h rs := by
  induction rs with
  | nil => exact Nat.le_refl 0
  | cons p rest ih =>
      obtain ⟨k₀, h₀⟩ := p
      by_cases hk : k₀ = k
      · simp only [removeKey, hk, if_true, regCount]
        exact Nat.le_trans ih (Nat.le_add_left _ _)
      · simp only [removeKey, hk, if_false, regCount]
        exact Nat.add_le_add_left ih _

theorem one_le_regCount_of_lookupKey {k : Key} {h : Handle}
    {rs : List (Key × Handle)} (hl : lookupKey k rs = some h) :
    1 ≤ regCount h rs := by
  induction rs with
  | nil => simp [lookupKey] at hl
  | cons p rest ih =>
      obtain ⟨k₀, h₀⟩ := p
      by_cases hk : k₀ = k
      · simp only [lookupKey, hk, if_true, Option.some.injEq] at hl
        simp [regCount, hl]
      · simp only [lookupKey, hk, if_false] at hl
        simp only [regCount]
        exact Nat.le_trans (ih hl) (Nat.le_add_left _ _)

theorem regCount_removeKey_eq {k : Key} {old : Handle}
    {rs : List (Key × Handle)} (hnd : ∀ j, keyCount j rs ≤ 1)
    (hl : lookupKey k rs = some old) (h : Handle) :
    regCount h rs =
      regCount h (removeKey k rs) + (if old = h then 1 else 0) := by
  induction rs with
  | nil => simp [lookupKey] at hl
  | cons p rest ih =>
      obtain ⟨k₀, h₀⟩ := p
      by_cases hk : k₀ = k
      · simp only [lookupKey, hk, if_true, Option.some.injEq] at hl
        have hone := hnd k
        simp only [keyCount, hk, if_true] at hone
        have hz : keyCount k rest = 0 := by omega
        simp only [removeKey, hk, if_true, removeKey_of_keyCount_zero hz,
          regCount, hl]
        omega
      · simp only [lookupKey, hk, if_false] at hl
        have hnd' : ∀ j, keyCount j rest ≤ 1 := by
          intro j
          have := hnd j
          simp only [keyCount] at this
          omega
        simp only [removeKey, hk, if_false, regCount, ih hnd' hl]
        omega

theorem destroyCount_append (h : Handle) (xs ys : List Event) :
    destroyCount h (xs ++ ys) = destroyCount h xs + destroyCount h ys := by
  induction xs with
  | nil => simp [destroyCount]
  | cons e rest ih =>
      cases e with
      | destroy h₀ =>
          simp only [List.cons_append, destroyCount, List.append_eq, ih]
          omega
      | service h₀ =>
          simp only [List.cons_append, destroyCount, List.append_eq, ih]

theorem serviceCount_append (h : Handle) (xs ys : List Event) :
    serviceCount h (xs ++ ys) = serviceCount h xs + serviceCount h ys := by
  induction xs with
  | nil => simp [serviceCount]
  | cons e rest ih =>
      cases e with
      | service h₀ =>
          simp only [List.cons_append, serviceCount, List.append_eq, ih]
          omega
      | destroy h₀ =>
          simp only [List.cons_append, serviceCount, List.append_eq, ih]

theorem destroyCount_map_destroy (h : Handle) (rs : List (Key × Handle)) :
    destroyCount h (rs.map fun p => Event.destroy p.2) = regCount h rs := by
  induction rs with
  | nil => rfl
  | cons p rest ih =>
      obtain ⟨k₀, h₀⟩ := p
      simp [destroyCount, regCount, ih]

theorem serviceCount_map_destroy (h : Handle) (rs : List (Key × Handle)) :
    serviceCount h (rs.map fun p => Event.destroy p.2) = 0 := by
  induction rs with
  | nil => rfl
  | cons p rest ih =>
      obtain ⟨k₀, h₀⟩ := p
      simp [serviceCount, ih]

theorem engineInstall_snd (st : EngineState) (k : Key) (h : Handle) :
    (engineInstall st k h).2 = SQLITE_OK := by
  unfold engineInstall
  cases lookupKey k st.regs <;> rfl

theorem engineInstall_owned (st : EngineState) (k : Key) (h : Handle) :
    (engineInstall st k h).1.owned = st.owned ++ [h] := by
  unfold engineInstall
  cases lookupKey k st.regs <;> rfl


theorem destroyCount_singleton_destroy (h₁ h₀ : Handle) :
    destroyCount h₁ [Event.destroy h₀] = if h₀ = h₁ then 1 else 0 := by
  simp [destroyCount]

theorem destroyCount_singleton_service (h₁ h₀ : Handle) :
    destroyCount h₁ [Event.service h₀] = 0 := by
  simp [destroyCount]

theorem serviceCount_singleton_destroy (h₁ h₀ : Handle) :
    serviceCount h₁ [Event.destroy h₀] = 0 := by
  simp [serviceCount]

theorem serviceCount_singleton_service (h₁ h₀ : Handle) :
    serviceCount h₁ [Event.service h₀] = if h₀ = h₁ then 1 else 0 := by
  simp [serviceCount]

theorem inv_engineInstall {st : EngineState} (k : Key) {h : Handle}
    (hInv : Inv st) (hfresh : h ∉ st.owned) :
    Inv (engineInstall st k h).1 := by
  obtain ⟨hkey, hown, hnot⟩ := hInv
  unfold engineInstall
  cases hl : lookupKey k st.regs with
  | some old =>
      have hold_reg : 1 ≤ regCount old st.regs :=
        one_le_regCount_of_lookupKey hl
      have hold_owned : old ∈ st.owned := by
        by_contra hc
        have := (hnot old hc).2.1
        omega
      have holdh : old ≠ h := fun he => hfresh (he ▸ hold_owned)
      refine ⟨?_, ?_, ?_⟩
      · intro j
        dsimp only
        simp only [keyCount]
        by_cases hj : k = j
        · subst hj
          simp [keyCount_removeKey_self]
        · have h1 := keyCount_removeKey_le j k st.regs
          have h2 := hkey j
          simp only [hj, if_false]
          omega
      · intro h₁ hm
        dsimp only at hm ⊢
        rw [destroyCount_append, destroyCount_singleton_destroy]
        simp only [regCount]
        have hrm := regCount_removeKey_eq hkey hl h₁
        rcases List.mem_append.1 hm with hmem | hmem
        · have hne : h ≠ h₁ := fun he => hfresh (he ▸ hmem)
          have hsum := hown h₁ hmem
          simp only [hne, if_false]
          omega
        · have hh : h₁ = h := List.mem_singleton.1 hmem
          subst hh
          have hz := hnot h₁ hfresh
          have hrm_le := regCount_removeKey_le h₁ k st.regs
          rw [if_neg holdh, if_pos rfl]
          omega
      · intro h₁ hm
        dsimp only at hm ⊢
        simp only [List.mem_append, List.mem_singleton, not_or] at hm
        obtain ⟨hm1, hm2⟩ := hm
        have hz := hnot h₁ hm1
        have hne_old : old ≠ h₁ := fun he => hm1 (he ▸ hold_owned)
        have hne_h : h ≠ h₁ := fun he => hm2 (he.symm)
        have hrm_le := regCount_removeKey_le h₁ k st.regs
        rw [destroyCount_append, destroyCount_singleton_destroy,
          serviceCount_append, serviceCount_singleton_destroy]
        simp only [regCount, if_neg hne_old, if_neg hne_h]
        omega
  | none =>
      have hkz : keyCount k st.regs = 0 := keyCount_eq_zero_of_lookupKey_none hl
      refine ⟨?_, ?_, ?_⟩
      · intro j
        dsimp only
        simp only [keyCount]
        by_cases hj : k = j
        · subst hj
          simp [hkz]
        · have h2 := hkey j
          simp only [hj, if_false]
          omega
      · intro h₁ hm
        dsimp only at hm ⊢
        simp only [regCount]
        rcases List.mem_append.1 hm with hmem | hmem
        · have hne : h ≠ h₁ := fun he => hfresh (he ▸ hmem)
          have hsum := hown h₁ hmem
          simp only [hne, if_false]
          omega
        · have hh : h₁ = h := List.mem_singleton.1 hmem
          subst hh
          have hz := hnot h₁ hfresh
          rw [if_pos rfl]
          omega
      · intro h₁ hm
        dsimp only at hm ⊢
        simp only [List.mem_append, List.mem_singleton, not_or] at hm
        obtain ⟨hm1, hm2⟩ := hm
        have hz := hnot h₁ hm1
        have hne_h : h ≠ h₁ := fun he => hm2 (he.symm)
        simp only [regCount, if_neg hne_h]
        omega

theorem inv_engineInvoke {st : EngineState} (k : Key) (hInv : Inv st) :
    Inv (engineInvoke st k) := by
  obtain ⟨hkey, hown, hnot⟩ := hInv
  unfold engineInvoke
  cases hl : lookupKey k st.regs with
  | none => exact ⟨hkey, hown, hnot⟩
  | some h₀ =>
      have h₀_owned : h₀ ∈ st.owned := by
        by_contra hc
        have h1 := (hnot h₀ hc).2.1
        have h2 := one_le_regCount_of_lookupKey hl
        omega
      refine ⟨hkey, ?_, ?_⟩
      · intro h₁ hm
        dsimp only at hm ⊢
        rw [destroyCount_append, destroyCount_singleton_service]
        have := hown h₁ hm
        omega
      · intro h₁ hm
        dsimp only at hm ⊢
        have hz := hnot h₁ hm
        have hne : h₀ ≠ h₁ := fun he => hm (he ▸ h₀_owned)
        rw [destroyCount_append, destroyCount_singleton_service,
          serviceCount_append, serviceCount_singleton_service, if_neg hne]
        omega

theorem inv_engineShutdown {st : EngineState} (hInv : Inv st) :
    Inv (engineShutdown st) := by
  obtain ⟨hkey, hown, hnot⟩ := hInv
  unfold engineShutdown
  refine ⟨?_, ?_, ?_⟩
  · intro j
    dsimp only
    simp [keyCount]
  · intro h₁ hm
    dsimp only at hm ⊢
    rw [destroyCount_append, destroyCount_map_destroy]
    have := hown h₁ hm
    simp only [regCount]
    omega
  · intro h₁ hm
    dsimp only at hm ⊢
    have hz := hnot h₁ hm
    rw [destroyCount_append, destroyCount_map_destroy,
      serviceCount_append, serviceCount_map_destroy]
    simp only [regCount]
    obtain ⟨hz1, hz2, hz3⟩ := hz
    exact ⟨by omega, trivial, by omega⟩

theorem inv_step {st : EngineState} {c : Cmd} (hInv : Inv st)
    (hfresh : ∀ p, cmdHandle c = some p → p ∉ st.owned) :
    Inv (step st c) := by
  cases c with
  | regCollation db n p =>
      have hp : p ∉ st.owned := hfresh p rfl
      simp only [step, goCollationReg, engineCreateCollation]
      split
      · exact inv_engineInstall _ hInv hp
      · exact hInv
  | regFunction db n a f p =>
      have hp : p ∉ st.owned := hfresh p rfl
      simp only [step, goFunctionReg, engineCreateFunction]
      split
      · exact inv_engineInstall _ hInv hp
      · exact hInv
  | regWindow db n a f p =>
      have hp : p ∉ st.owned := hfresh p rfl
      simp only [step, goWindowReg, engineCreateWindow]
      split
      · exact inv_engineInstall _ hInv hp
      · exact hInv
  | regAggregate db n a f p =>
      have hp : p ∉ st.owned := hfresh p rfl
      simp only [step, goAggregateReg, engineCreateWindow]
      split
      · exact inv_engineInstall _ hInv hp
      · exact hInv
  | invoke k => exact inv_engineInvoke k hInv
  | shutdown => exact inv_engineShutdown hInv

theorem mem_owned_step {st : EngineState} {c : Cmd} {h : Handle}
    (hm : h ∈ (step st c).owned) : h ∈ st.owned ∨ cmdHandle c = some h := by
  cases c with
  | regCollation db n p =>
      revert hm
      simp only [step, goCollationReg, engineCreateCollation]
      split
      · rw [engineInstall_owned]
        intro hm
        rcases List.mem_append.1 hm with hm | hm
        · exact Or.inl hm
        · exact Or.inr (by simp [cmdHandle, collationCall, List.mem_singleton.1 hm])
      · exact fun hm => Or.inl hm
  | regFunction db n a f p =>
      revert hm
      simp only [step, goFunctionReg, engineCreateFunction]
      split
      · rw [engineInstall_owned]
        intro hm
        rcases List.mem_append.1 hm with hm | hm
        · exact Or.inl hm
        · exact Or.inr (by simp [cmdHandle, functionCall, List.mem_singleton.1 hm])
      · exact fun hm => Or.inl hm
  | regWindow db n a f p =>
      revert hm
      simp only [step, goWindowReg, engineCreateWindow]
      split
      · rw [engineInstall_owned]
        intro hm
        rcases List.mem_append.1 hm with hm | hm
        · exact Or.inl hm
        · exact Or.inr (by simp [cmdHandle, windowCall, List.mem_singleton.1 hm])
      · exact fun hm => Or.inl hm
  | regAggregate db n a f p =>
      revert hm
      simp only [step, goAggregateReg, engineCreateWindow]
      split
      · rw [engineInstall_owned]
        intro hm
        rcases List.mem_append.1 hm with hm | hm
        · exact Or.inl hm
        · exact Or.inr (by simp [cmdHandle, aggregateCall, List.mem_singleton.1 hm])
      · exact fun hm => Or.inl hm
  | invoke k =>
      revert hm
      simp only [step, engineInvoke]
      cases lookupKey k st.regs with
      | none => exact fun hm => Or.inl hm
      | some h₀ => exact fun hm => Or.inl hm
  | shutdown => exact Or.inl hm

theorem inv_run {cmds : List Cmd} {st : EngineState} (hInv : Inv st)
    (hnodup : (cmdHandles cmds).Nodup)
    (hdisj : ∀ h ∈ cmdHandles cmds, h ∉ st.owned) :
    Inv (run st cmds) ∧
      ∀ h, h ∈ (run st cmds).owned → h ∈ st.owned ∨ h ∈ cmdHandles cmds := by
  induction cmds generalizing st with
  | nil => exact ⟨hInv, fun h hm => Or.inl hm⟩
  | cons c cs ih =>
      have hInv₂ : Inv (step st c) := inv_step hInv (by
        intro p hp
        apply hdisj
        simp [cmdHandles, List.filterMap_cons, hp])
      have hnodup₂ : (cmdHandles cs).Nodup := by
        cases hc : cmdHandle c with
        | none => simpa [cmdHandles, List.filterMap_cons, hc] using hnodup
        | some p =>
            have he : cmdHandles (c :: cs) = p :: cmdHandles cs := by
              simp [cmdHandles, List.filterMap_cons, hc]
            rw [he] at hnodup
            exact List.Nodup.of_cons hnodup
      have hdisj₂ : ∀ h ∈ cmdHandles cs, h ∉ (step st c).owned := by
        intro h hm hmem
        rcases mem_owned_step hmem with hcase | hcase
        · refine hdisj h ?_ hcase
          cases hc : cmdHandle c with
          | none =>
              have he : cmdHandles (c :: cs) = cmdHandles cs := by
                simp [cmdHandles, List.filterMap_cons, hc]
              rw [he]
              exact hm
          | some p =>
              have he : cmdHandles (c :: cs) = p :: cmdHandles cs := by
                simp [cmdHandles, List.filterMap_cons, hc]
              rw [he]
              exact List.mem_cons_of_mem _ hm
        · have he : cmdHandles (c :: cs) = h :: cmdHandles cs := by
            simp [cmdHandles, List.filterMap_cons, hcase]
          rw [he] at hnodup
          exact (List.nodup_cons.1 hnodup).1 hm
      obtain ⟨hi, ho⟩ := ih hInv₂ hnodup₂ hdisj₂
      refine ⟨by simpa [run] using hi, ?_⟩
      intro h hm
      simp only [run] at hm
      rcases ho h hm with hcase | hcase
      · rcases mem_owned_step hcase with h1 | h1
        · exact Or.inl h1
        · refine Or.inr ?_
          have he : cmdHandles (c :: cs) = h :: cmdHandles cs := by
            simp [cmdHandles, List.filterMap_cons, h1]
          rw [he]
          exact List.mem_cons_self h _
      · refine Or.inr ?_
        cases hc : cmdHandle c with
        | none =>
            have he : cmdHandles (c :: cs) = cmdHandles cs := by
              simp [cmdHandles, List.filterMap_cons, hc]
            rw [he]
            exact hcase
        | some p =>
            have he : cmdHandles (c :: cs) = p :: cmdHandles cs := by
              simp [cmdHandles, List.filterMap_cons, hc]
            rw [he]
            exact List.mem_cons_of_mem _ hcase

theorem run_append (st : EngineState) (xs ys : List Cmd) :
    run st (xs ++ ys) = run (run st xs) ys := by
  induction xs generalizing st with
  | nil => rfl
  | cons c cs ih =>
      simp only [List.cons_append, run]
      exact ih (step st c)

theorem engineInstall_events (st : EngineState) (k : Key) (h : Handle) :
    ∃ tl, (engineInstall st k h).1.events = st.events ++ tl := by
  unfold engineInstall
  cases lookupKey k st.regs with
  | some old => exact ⟨[Event.destroy old], rfl⟩
  | none => exact ⟨[], by simp⟩

theorem step_events_extend (st : EngineState) (c : Cmd) :
    ∃ tl, (step st c).events = st.events ++ tl := by
  cases c with
  | regCollation db n p =>
      simp only [step, goCollationReg, engineCreateCollation]
      split
      · exact engineInstall_events _ _ _
      · exact ⟨[], by simp⟩
  | regFunction db n a f p =>
      simp only [step, goFunctionReg, engineCreateFunction]
      split
      · exact engineInstall_events _ _ _
      · exact ⟨[], by simp⟩
  | regWindow db n a f p =>
      simp only [step, goWindowReg, engineCreateWindow]
      split
      · exact engineInstall_events _ _ _
      · exact ⟨[], by simp⟩
  | regAggregate db n a f p =>
      simp only [step, goAggregateReg, engineCreateWindow]
      split
      · exact engineInstall_events _ _ _
      · exact ⟨[], by simp⟩
  | invoke k =>
      simp only [step, engineInvoke]
      cases lookupKey k st.regs with
      | none => exact ⟨[], by simp⟩
      | some h₀ => exact ⟨[Event.service h₀], rfl⟩
  | shutdown =>
      refine ⟨st.regs.map (fun p => Event.destroy p.2), ?_⟩
      simp [step, engineShutdown]

theorem run_events_extend (st : EngineState) (cmds : List Cmd) :
    ∃ tl, (run st cmds).events = st.events ++ tl := by
  induction cmds generalizing st with
  | nil => exact ⟨[], by simp [run]⟩
  | cons c cs ih =>
      obtain ⟨t1, h1⟩ := step_events_extend st c
      obtain ⟨t2, h2⟩ := ih (step st c)
      refine ⟨t1 ++ t2, ?_⟩
      simp only [run]
      rw [h2, h1, List.append_assoc]


theorem lor_utf8_eq_of_testBit_zero {x : Nat} (hx : x.testBit 0 = true) :
    SQLITE_UTF8 ||| x = x := by
  apply Nat.eq_of_testBit_eq
  intro i
  cases i with
  | zero => simp [Nat.testBit_or, SQLITE_UTF8, hx]
  | succ n =>
      rw [Nat.testBit_or]
      have h1 : (SQLITE_UTF8 : Nat).testBit (n + 1) = false := by
        have h2 : (SQLITE_UTF8 : Nat) = 2 ^ 0 := rfl
        rw [h2]
        exact Nat.testBit_two_pow_of_ne (Nat.succ_ne_zero n).symm
      simp [h1]

/-- ORing the base text-encoding flag into the caller flags does not change
whether the combined bitset stays inside the supported bitset, since the
base flag itself is supported. -/
theorem subsetBits_lor_utf8 (f : Nat) :
    subsetBits (SQLITE_UTF8 ||| f) SUPPORTED_FLAGS =
      subsetBits f SUPPORTED_FLAGS := by
  unfold subsetBits
  rw [Nat.lor_assoc]
  have hb : (f ||| SUPPORTED_FLAGS).testBit 0 = true := by
    rw [Nat.testBit_or]
    have hs : SUPPORTED_FLAGS.testBit 0 = true := by decide
    simp [hs]
  rw [lor_utf8_eq_of_testBit_zero hb]

theorem validFunction_false_of_viol {zName : String} {nArg : Int}
    {flags : Nat}
    (hviol : validIdent zName = false ∨ nArg < -1 ∨
      subsetBits flags SUPPORTED_FLAGS = false) :
    validFunction zName nArg (SQLITE_UTF8 ||| flags) = false := by
  unfold validFunction
  rw [subsetBits_lor_utf8]
  rcases hviol with h | h | h
  · simp [h]
  · have hd : decide (-1 ≤ nArg) = false := decide_eq_false (by omega)
    simp [hd]
  · simp [h]

theorem inv_empty : Inv EngineState.empty := by
  refine ⟨?_, ?_, ?_⟩
  · intro k
    simp [EngineState.empty, keyCount]
  · intro h₁ hm
    simp [EngineState.empty] at hm
  · intro h₁ hm
    simp [EngineState.empty, destroyCount, regCount, serviceCount]

theorem empty_owned_not_mem (h : Handle) : h ∉ EngineState.empty.owned := by
  simp [EngineState.empty]

end GoSqlite3

namespace GoSqlite3

/-! ### Claims settled against the spec-modelled engine -/

/-- **C2** (spec-modelled engine): for every registration call through any
of the four bridge entry points that returns a failure status, ownership of
the opaque handle is not transferred: the engine state is unchanged, so in
particular no destroy event fires on the handle and it is not recorded as
engine-owned; the caller retains responsibility for releasing it. -/
theorem C2_no_ownership_transfer_on_failure :
    (∀ (st : EngineState) (db : Handle) (zName : String) (pApp : Handle),
      (goCollationReg st db zName pApp).2 ≠ SQLITE_OK →
        (goCollationReg st db zName pApp).1 = st) ∧
    (∀ (st : EngineState) (db : Handle) (zName : String) (nArg : Int)
        (flags : Nat) (pApp : Handle),
      (goFunctionReg st db zName nArg flags pApp).2 ≠ SQLITE_OK →
        (goFunctionReg st db zName nArg flags pApp).1 = st) ∧
    (∀ (st : EngineState) (db : Handle) (zName : String) (nArg : Int)
        (flags : Nat) (pApp : Handle),
      (goWindowReg st db zName nArg flags pApp).2 ≠ SQLITE_OK →
        (goWindowReg st db zName nArg flags pApp).1 = st) ∧
    (∀ (st : EngineState) (db : Handle) (zName : String) (nArg : Int)
        (flags : Nat) (pApp : Handle),
      (goAggregateReg st db zName nArg flags pApp).2 ≠ SQLITE_OK →
        (goAggregateReg st db zName nArg flags pApp).1 = st) := by
  refine ⟨?_, ?_, ?_, ?_⟩
  · intro st db zName pApp hfail
    by_cases hv : validIdent (collationCall db zName pApp).zName
    · exfalso
      apply hfail
      simp only [goCollationReg, engineCreateCollation, if_pos hv]
      exact engineInstall_snd _ _ _
    · simp only [goCollationReg, engineCreateCollation, if_neg hv]
  · intro st db zName nArg flags pApp hfail
    by_cases hv : validFunction (functionCall db zName nArg flags pApp).zName
        (functionCall db zName nArg flags pApp).nArg
        (functionCall db zName nArg flags pApp).eTextRep
    · exfalso
      apply hfail
      simp only [goFunctionReg, engineCreateFunction, if_pos hv]
      exact engineInstall_snd _ _ _
    · simp only [goFunctionReg, engineCreateFunction, if_neg hv]
  · intro st db zName nArg flags pApp hfail
    by_cases hv : validFunction (windowCall db zName nArg flags pApp).zName
        (windowCall db zName nArg flags pApp).nArg
        (windowCall db zName nArg flags pApp).eTextRep
    · exfalso
      apply hfail
      simp only [goWindowReg, engineCreateWindow, if_pos hv]
      exact engineInstall_snd _ _ _
    · simp only [goWindowReg, engineCreateWindow, if_neg hv]
  · intro st db zName nArg flags pApp hfail
    by_cases hv : validFunction (aggregateCall db zName nArg flags pApp).zName
        (aggregateCall db zName nArg flags pApp).nArg
        (aggregateCall db zName nArg flags pApp).eTextRep
    · exfalso
      apply hfail
      simp only [goAggregateReg, engineCreateWindow, if_pos hv]
      exact engineInstall_snd _ _ _
    · simp only [goAggregateReg, engineCreateWindow, if_neg hv]

/-- Witness for C2: registering a scalar function under the empty name
fails, and the engine state is unchanged — the handle was not destroyed nor
taken over. -/
theorem C2_no_ownership_transfer_on_failure_witness :
    (goFunctionReg EngineState.empty 0 "" 1 0 7).2 ≠ SQLITE_OK ∧
    (goFunctionReg EngineState.empty 0 "" 1 0 7).1 = EngineState.empty :=
  ⟨by decide,
    C2_no_ownership_transfer_on_failure.2.1 EngineState.empty 0 "" 1 0 7
      (by decide)⟩

/-- **C5** (spec-modelled engine): every registration call enforces the
contract — name non-empty and a valid identifier, arity at least −1, flags
within the supported bitset; any violation is rejected synchronously with
`SQLITE_MISUSE` and no registration is produced (the state is unchanged).
For the function-kind entry points the violation is stated on the caller's
flags: the base text-encoding bit the bridge ORs in is itself supported, so
the engine's check of the combined bitset rejects exactly the calls whose
caller flags contain unsupported bits. -/
theorem C5_contract_validation (st : EngineState) (db : Handle)
    (zName : String) (nArg : Int) (flags : Nat) (pApp : Handle) :
    (validIdent zName = false →
      (goCollationReg st db zName pApp).2 = SQLITE_MISUSE ∧
      (goCollationReg st db zName pApp).1 = st) ∧
    ((validIdent zName = false ∨ nArg < -1 ∨
        subsetBits flags SUPPORTED_FLAGS = false) →
      ((goFunctionReg st db zName nArg flags pApp).2 = SQLITE_MISUSE ∧
        (goFunctionReg st db zName nArg flags pApp).1 = st) ∧
      ((goWindowReg st db zName nArg flags pApp).2 = SQLITE_MISUSE ∧
        (goWindowReg st db zName nArg flags pApp).1 = st) ∧
      ((goAggregateReg st db zName nArg flags pApp).2 = SQLITE_MISUSE ∧
        (goAggregateReg st db zName nArg flags pApp).1 = st)) := by
  constructor
  · intro hv
    constructor <;>
      simp [goCollationReg, engineCreateCollation, collationCall, hv]
  · intro hviol
    have hvf := validFunction_false_of_viol hviol
    refine ⟨⟨?_, ?_⟩, ⟨?_, ?_⟩, ?_, ?_⟩ <;>
      simp [goFunctionReg, goWindowReg, goAggregateReg, engineCreateFunction,
        engineCreateWindow, functionCall, windowCall, aggregateCall, hvf]

/-- Witness for C5: flags value 2 has a bit outside the supported bitset;
registering a scalar function with it is rejected with `SQLITE_MISUSE`. -/
theorem C5_contract_validation_witness :
    subsetBits 2 SUPPORTED_FLAGS = false ∧
    (goFunctionReg EngineState.empty 0 "f" 1 2 7).2 = SQLITE_MISUSE :=
  ⟨by decide,
    ((C5_contract_validation EngineState.empty 0 "f" 1 2 7).2
      (Or.inr (Or.inr (by decide)))).1.1⟩

/-- **C3** (spec-modelled engine): over a full lifetime (any command
sequence ending in engine shutdown, with pairwise distinct fresh handles),
every handle whose registration succeeded — i.e. every handle the engine
ever took ownership of — is destroyed exactly once, and a handle never
successfully registered is never destroyed at all. -/
theorem C3_destroy_exactly_once (cmds : List Cmd) (h : Handle)
    (hnodup : (cmdHandles cmds).Nodup) :
    (h ∈ (run EngineState.empty (cmds ++ [Cmd.shutdown])).owned →
      destroyCount h
        (run EngineState.empty (cmds ++ [Cmd.shutdown])).events = 1) ∧
    (h ∉ (run EngineState.empty (cmds ++ [Cmd.shutdown])).owned →
      destroyCount h
        (run EngineState.empty (cmds ++ [Cmd.shutdown])).events = 0) := by
  have hnodup₂ : (cmdHandles (cmds ++ [Cmd.shutdown])).Nodup := by
    have he : cmdHandles (cmds ++ [Cmd.shutdown]) = cmdHandles cmds := by
      simp [cmdHandles, List.filterMap_append, cmdHandle]
    rw [he]
    exact hnodup
  have hdisj : ∀ h₁ ∈ cmdHandles (cmds ++ [Cmd.shutdown]),
      h₁ ∉ EngineState.empty.owned := fun h₁ _ => empty_owned_not_mem h₁
  obtain ⟨⟨hkey, hown, hnot⟩, _⟩ := inv_run inv_empty hnodup₂ hdisj
  have hregs : (run EngineState.empty (cmds ++ [Cmd.shutdown])).regs = [] := by
    rw [run_append]
    rfl
  constructor
  · intro hm
    have hsum := hown h hm
    rw [hregs] at hsum
    simpa [regCount] using hsum
  · intro hm
    exact (hnot h hm).1

/-- Witness for C3: register handle 7 as a scalar function, then shut down;
handle 7 is owned and destroyed exactly once. -/
theorem C3_destroy_exactly_once_witness :
    7 ∈ (run EngineState.empty
      ([Cmd.regFunction 0 "f" 1 0 7] ++ [Cmd.shutdown])).owned ∧
    destroyCount 7 (run EngineState.empty
      ([Cmd.regFunction 0 "f" 1 0 7] ++ [Cmd.shutdown])).events = 1 :=
  ⟨by decide,
    (C3_destroy_exactly_once [Cmd.regFunction 0 "f" 1 0 7] 7 (by decide)).1
      (by decide)⟩

/-- **C6** (spec-modelled engine): when a registration under an
already-registered name+arity key succeeds with a fresh handle, the old
handle's destroy event is emitted at replacement time, strictly before any
event of the new handle servicing a call: the final trace splits as
`pre ++ destroy old :: post` where the new handle serviced nothing in
`pre`. -/
theorem C6_replace_destroys_old_before_new_serves (cmds₁ cmds₂ : List Cmd)
    (db : Handle) (zName : String) (nArg : Int) (flags : Nat)
    (newH old : Handle)
    (hnodup : (cmdHandles cmds₁).Nodup)
    (hfresh : newH ∉ cmdHandles cmds₁)
    (hold : lookupKey (Kind.function, zName, nArg)
      (run EngineState.empty cmds₁).regs = some old)
    (hvalid : validFunction zName nArg (SQLITE_UTF8 ||| flags) = true) :
    ∃ pre post,
      (run EngineState.empty
        (cmds₁ ++ Cmd.regFunction db zName nArg flags newH :: cmds₂)).events =
        pre ++ Event.destroy old :: post ∧
      serviceCount newH pre = 0 := by
  have hstep : (step (run EngineState.empty cmds₁)
      (Cmd.regFunction db zName nArg flags newH)).events =
      (run EngineState.empty cmds₁).events ++ [Event.destroy old] := by
    simp only [step, goFunctionReg, engineCreateFunction, functionCall,
      hvalid, if_true, engineInstall, hold]
  obtain ⟨tl, htl⟩ := run_events_extend
    (step (run EngineState.empty cmds₁)
      (Cmd.regFunction db zName nArg flags newH)) cmds₂
  refine ⟨(run EngineState.empty cmds₁).events, tl, ?_, ?_⟩
  · have hsplit : run EngineState.empty
        (cmds₁ ++ Cmd.regFunction db zName nArg flags newH :: cmds₂) =
        run (step (run EngineState.empty cmds₁)
          (Cmd.regFunction db zName nArg flags newH)) cmds₂ := by
      rw [run_append]
      rfl
    rw [hsplit, htl, hstep, List.append_assoc]
    rfl
  · obtain ⟨⟨hkey, hown, hnot⟩, ho⟩ := inv_run inv_empty hnodup
      (fun h₁ _ => empty_owned_not_mem h₁)
    have hnotin : newH ∉ (run EngineState.empty cmds₁).owned := by
      intro hc
      rcases ho newH hc with h1 | h1
      · exact empty_owned_not_mem newH h1
      · exact hfresh h1
    exact (hnot newH hnotin).2.2

/-- Witness for C6: handle 5 registered under ("f", 1), then replaced by
handle 6, then the function is invoked; the trace splits with destroy 5
before any service of 6. -/
theorem C6_replace_destroys_old_before_new_serves_witness :
    ∃ pre post,
      (run EngineState.empty
        ([Cmd.regFunction 0 "f" 1 0 5] ++
          Cmd.regFunction 0 "f" 1 0 6 ::
            [Cmd.invoke (Kind.function, "f", 1)])).events =
        pre ++ Event.destroy 5 :: post ∧
      serviceCount 6 pre = 0 :=
  C6_replace_destroys_old_before_new_serves
    [Cmd.regFunction 0 "f" 1 0 5] [Cmd.invoke (Kind.function, "f", 1)]
    0 "f" 1 0 6 5 (by decide) (by decide) (by decide) (by decide)

end GoSqlite3
